import Mathlib

/-!
Shallow embedding of the market-data ingestion engine
(database downloader, pairs tracker, persistence helpers, config handler)
for verification of its specification.

Conventions of the embedding:
- `std::map<K,V>` / JSON objects are modelled as association lists
  `List (K × V)` whose key sequence is duplicate-free (the `std::map`
  invariant appears as a `Nodup` hypothesis where a proof needs it).
- `std::string` values that the code slices with `substr`/`stoi` are
  modelled as `List Char` (one `Char` per byte; all relevant text is ASCII).
- SQLite tables are modelled by their logical content: `ohlcv_data` as an
  association list keyed by `(pair, date)`, `tracked_pairs` as an optional
  single row, `date_of_start` as an optional marker.
- `double` prices are modelled as `ℚ`; no verified claim computes with them.
- C++ exceptions are modelled with `Except Unit`; network I/O is an oracle
  argument (a `Transport` value for the ticker endpoint, an `OHLCVData`
  value for the merged result of the threaded kline fetch).
-/

namespace MarketData

/-! ## Dates (`std::chrono::year_month_day` and `time_utils.cpp`) -/

/-- A `std::chrono::year_month_day`: year is a signed count, month and day
are unsigned (source: `time_utils.cpp`, `database_downloader.h`). -/
structure Ymd where
  y : Int
  m : Nat
  d : Nat
deriving DecidableEq

/-- `EMPTY_DATE` placeholder from `database_downloader.h`: 2000/1/1. -/
def EMPTY_DATE : Ymd := ⟨2000, 1, 1⟩

/-- `std::chrono::year::ok()`: the stored year lies in [-32767, 32767]. -/
def yearOk (y : Int) : Bool := -32767 ≤ y && y ≤ 32767

/-- `std::chrono::month::ok()`: 1 ≤ m ≤ 12. -/
def monthOk (m : Nat) : Bool := 1 ≤ m && m ≤ 12

/-- `std::chrono::day::ok()`: 1 ≤ d ≤ 31. -/
def dayOk (d : Nat) : Bool := 1 ≤ d && d ≤ 31

/-- `toYYYYMMDD` from `time_utils.cpp`: `y * 10000 + m * 100 + d`. -/
def toYYYYMMDD (x : Ymd) : Int := x.y * 10000 + (x.m : Int) * 100 + (x.d : Int)

/-- Serial day number of a civil date, as used by the conversion
`std::chrono::sys_days(year_month_day)` (days since 1970-01-01; the
standard civil-from-days algorithm with C++ truncating division). -/
def daysFromCivil (x : Ymd) : Int :=
  let y : Int := if x.m ≤ 2 then x.y - 1 else x.y
  let era : Int := (if 0 ≤ y then y else y - 399).tdiv 400
  let yoe : Int := y - era * 400
  let mp : Int := if 2 < x.m then (x.m : Int) - 3 else (x.m : Int) + 9
  let doy : Int := (153 * mp + 2).tdiv 5 + (x.d : Int) - 1
  let doe : Int := yoe * 365 + yoe.tdiv 4 - yoe.tdiv 100 + doy
  era * 146097 + doe - 719468

/-! ## Association-list maps (model of `std::map` and JSON objects) -/

/-- `std::map::operator[]` assignment: replace the value of an existing key
in place, otherwise add the binding. -/
def mapInsert {K V : Type} [DecidableEq K] (k : K) (v : V) :
    List (K × V) → List (K × V)
  | [] => [(k, v)]
  | (k2, v2) :: rest =>
    if k2 = k then (k, v) :: rest else (k2, v2) :: mapInsert k v rest

/-- `std::map::find` / lookup: value of the first binding of `k`. -/
def mapFind {K V : Type} [DecidableEq K] (k : K) :
    List (K × V) → Option V
  | [] => none
  | (k2, v2) :: rest => if k2 = k then some v2 else mapFind k rest

/-- The key sequence of an association list. -/
def keysOf {K V : Type} (l : List (K × V)) : List K := l.map Prod.fst

/-! ## Tracked data (`database_downloader.h`) -/

/-- `TrackedData`: a date plus the pair → days-outside-top-50 map.
Counters have C++ type `int`. -/
structure TrackedData where
  date : Ymd
  trackedPairs : List (String × Int)
deriving DecidableEq

/-! ## `getNewTrackedPairs` (`database_pairs_tracker.cpp`, lines 81-114) -/

/-- Day difference used at `database_pairs_tracker.cpp:99-100`:
`(sys_days(date) - sys_days(prev.date)).count()`, floored to 1
(the `if (diff < 1) diff = 1` anomaly clamp). -/
def dayDiff (prevDate date : Ymd) : Int :=
  let diff := daysFromCivil date - daysFromCivil prevDate
  if diff < 1 then 1 else diff

/-- The loop `for (p : top50) result.trackedPairs[p] = 0;`. -/
def initTopZero (top50 : List String) : List (String × Int) :=
  top50.foldl (fun acc p => mapInsert p 0 acc) []

/-- `DatabaseDownloader::getNewTrackedPairs`: recompute the tracked-pair
state from the previous state, the top-50 set of the day, the existence flag and
the target date. -/
def getNewTrackedPairs (prev : TrackedData) (top50 : List String)
    (prev_exists : Bool) (date : Ymd) : TrackedData :=
  if !prev_exists then
    { date := date, trackedPairs := initTopZero top50 }
  else
    let diff := dayDiff prev.date date
    { date := date,
      trackedPairs :=
        prev.trackedPairs.foldl
          (fun acc kv =>
            if decide (kv.1 ∈ top50) then acc
            else mapInsert kv.1 (kv.2 + diff) acc)
          (initTopZero top50) }

/-! ## Map lemmas -/

theorem mapFind_mapInsert_self {K V : Type} [DecidableEq K]
    (k : K) (v : V) (l : List (K × V)) :
    mapFind k (mapInsert k v l) = some v := by
  induction l with
  | nil => simp [mapInsert, mapFind]
  | cons hd tl ih =>
    obtain ⟨k2, v2⟩ := hd
    by_cases h : k2 = k
    · simp [mapInsert, h, mapFind]
    · simp [mapInsert, h, mapFind, ih]

theorem mapFind_mapInsert_ne {K V : Type} [DecidableEq K]
    {p k : K} (v : V) (l : List (K × V)) (h : p ≠ k) :
    mapFind p (mapInsert k v l) = mapFind p l := by
  induction l with
  | nil => simp [mapInsert, mapFind, Ne.symm h]
  | cons hd tl ih =>
    obtain ⟨k2, v2⟩ := hd
    by_cases h2 : k2 = k
    · subst h2
      simp [mapInsert, mapFind, Ne.symm h]
    · simp [mapInsert, h2, mapFind, ih]

theorem mapInsert_mapInsert {K V : Type} [DecidableEq K]
    (k : K) (v1 v2 : V) (l : List (K × V)) :
    mapInsert k v2 (mapInsert k v1 l) = mapInsert k v2 l := by
  induction l with
  | nil => simp [mapInsert]
  | cons hd tl ih =>
    obtain ⟨k2, w⟩ := hd
    by_cases h : k2 = k
    · simp [mapInsert, h]
    · simp [mapInsert, h, ih]

theorem mapInsert_of_not_mem {K V : Type} [DecidableEq K]
    {k : K} (v : V) {l : List (K × V)} (h : k ∉ keysOf l) :
    mapInsert k v l = l ++ [(k, v)] := by
  induction l with
  | nil => simp [mapInsert]
  | cons hd tl ih =>
    obtain ⟨k2, v2⟩ := hd
    simp only [keysOf, List.map_cons, List.mem_cons] at h
    push_neg at h
    simp [mapInsert, Ne.symm h.1, ih (by simpa [keysOf] using h.2)]

theorem mapFind_mem {K V : Type} [DecidableEq K]
    {k : K} {v : V} {l : List (K × V)} (h : mapFind k l = some v) :
    (k, v) ∈ l := by
  induction l with
  | nil => simp [mapFind] at h
  | cons hd tl ih =>
    obtain ⟨k2, v2⟩ := hd
    by_cases h2 : k2 = k
    · subst h2
      have hv : v2 = v := by simpa [mapFind] using h
      subst hv
      exact List.mem_cons_self _ _
    · simp only [mapFind, if_neg h2] at h
      exact List.mem_cons_of_mem _ (ih h)

theorem mapFind_eq_none_of_not_mem {K V : Type} [DecidableEq K]
    {k : K} {l : List (K × V)} (h : k ∉ keysOf l) :
    mapFind k l = none := by
  induction l with
  | nil => simp [mapFind]
  | cons hd tl ih =>
    obtain ⟨k2, v2⟩ := hd
    simp only [keysOf, List.map_cons, List.mem_cons] at h
    push_neg at h
    simp [mapFind, Ne.symm h.1, ih (by simpa [keysOf] using h.2)]

/-- Generic preservation: a left fold whose step never touches the binding
of `p` leaves `mapFind p` unchanged. -/
theorem mapFind_foldl_preserve {K V A : Type} [DecidableEq K]
    (p : K) (g : List (K × V) → A → List (K × V)) (l : List A)
    (acc : List (K × V))
    (hg : ∀ acc2 a, a ∈ l → mapFind p (g acc2 a) = mapFind p acc2) :
    mapFind p (l.foldl g acc) = mapFind p acc := by
  induction l generalizing acc with
  | nil => rfl
  | cons hd tl ih =>
    rw [List.foldl_cons, ih _ (fun acc2 a ha => hg acc2 a (by simp [ha]))]
    exact hg acc hd (by simp)

theorem mapFind_initTopZero {p : String} {top50 : List String}
    (acc : List (String × Int)) :
    mapFind p (top50.foldl (fun acc2 q => mapInsert q 0 acc2) acc) =
      if p ∈ top50 then some 0 else mapFind p acc := by
  induction top50 generalizing acc with
  | nil => simp
  | cons hd tl ih =>
    by_cases h : p ∈ tl
    · simp [List.foldl_cons, ih, h, List.mem_cons]
    · by_cases h2 : p = hd
      · subst h2
        simp [List.foldl_cons, ih, h, mapFind_mapInsert_self]
      · simp [List.foldl_cons, ih, h, h2, mapFind_mapInsert_ne _ _ h2]

theorem not_mem_of_mapFind_eq_none {K V : Type} [DecidableEq K]
    {k : K} {l : List (K × V)} (h : mapFind k l = none) :
    k ∉ keysOf l := by
  induction l with
  | nil => simp [keysOf]
  | cons hd tl ih =>
    obtain ⟨k2, v2⟩ := hd
    by_cases h2 : k2 = k
    · subst h2
      simp [mapFind] at h
    · simp only [mapFind, if_neg h2] at h
      simp [keysOf, Ne.symm h2]
      simpa [keysOf] using ih h

/-- The carry loop of `getNewTrackedPairs`: the unique binding of a pair
`p` outside the top-50 ends up incremented by `diff`. -/
theorem carry_fold_find (top50 : List String) (diff : Int)
    (l : List (String × Int)) (p : String) (old : Int)
    (acc : List (String × Int))
    (hnd : (keysOf l).Nodup) (hfind : mapFind p l = some old)
    (hnot : p ∉ top50) :
    mapFind p
      (l.foldl
        (fun acc2 kv =>
          if decide (kv.1 ∈ top50) then acc2
          else mapInsert kv.1 (kv.2 + diff) acc2)
        acc) = some (old + diff) := by
  induction l generalizing acc with
  | nil => simp [mapFind] at hfind
  | cons hd tl ih =>
    obtain ⟨q, w⟩ := hd
    simp only [keysOf, List.map_cons, List.nodup_cons] at hnd
    by_cases hq : q = p
    · subst hq
      have hw : w = old := by simpa [mapFind] using hfind
      subst hw
      rw [List.foldl_cons]
      have hstep :
          (if decide (q ∈ top50) then acc
           else mapInsert q (w + diff) acc) = mapInsert q (w + diff) acc := by
        simp [hnot]
      rw [hstep,
        mapFind_foldl_preserve q _ tl (mapInsert q (w + diff) acc)
          (fun acc2 kv hkv => by
            by_cases hmem : kv.1 ∈ top50
            · simp [hmem]
            · have hne : q ≠ kv.1 := by
                intro hh
                exact hnd.1 (hh ▸ (List.mem_map.mpr ⟨kv, hkv, rfl⟩))
              simp [hmem, mapFind_mapInsert_ne _ _ hne]),
        mapFind_mapInsert_self]
    · have hfind2 : mapFind p tl = some old := by
        simpa [mapFind, hq] using hfind
      rw [List.foldl_cons]
      exact ih _ (by simpa [keysOf] using hnd.2) hfind2

/-- C4: with an existing previous state, every pair present in the
previous state but absent from the top-N of the day carries forward with counter
oldCounter + diff, where diff is the whole-day difference between the
target date and the date of the previous state floored to a minimum of 1;
diff is never zero or negative. -/
theorem getNewTrackedPairs_carriesForwardAbsent
    (prev : TrackedData) (top50 : List String) (date : Ymd)
    (p : String) (old : Int)
    (hnd : (keysOf prev.trackedPairs).Nodup)
    (hfind : mapFind p prev.trackedPairs = some old)
    (hnot : p ∉ top50) :
    1 ≤ dayDiff prev.date date ∧
    dayDiff prev.date date =
      max 1 (daysFromCivil date - daysFromCivil prev.date) ∧
    mapFind p (getNewTrackedPairs prev top50 true date).trackedPairs =
      some (old + dayDiff prev.date date) := by
  refine ⟨?_, ?_, ?_⟩
  · simp only [dayDiff]
    split <;> omega
  · simp only [dayDiff]
    split <;> omega
  · unfold getNewTrackedPairs
    simp only [Bool.not_true, Bool.false_eq_true, if_false]
    exact carry_fold_find top50 (dayDiff prev.date date)
      prev.trackedPairs p old (initTopZero top50) hnd hfind hnot

/-- C4 witness: spec scenario B — previous state asOf 2024-01-17 with
DOGEUSDT at 3, DOGEUSDT outside the top-N of the day, target 2024-01-18:
DOGEUSDT carries forward to 4. -/
theorem getNewTrackedPairs_carriesForwardAbsent_witness :
    mapFind "DOGEUSDT"
      (getNewTrackedPairs ⟨⟨2024, 1, 17⟩, [("BTCUSDT", 0), ("DOGEUSDT", 3)]⟩
        ["BTCUSDT"] true ⟨2024, 1, 18⟩).trackedPairs = some 4 := by
  have h := getNewTrackedPairs_carriesForwardAbsent
    ⟨⟨2024, 1, 17⟩, [("BTCUSDT", 0), ("DOGEUSDT", 3)]⟩ ["BTCUSDT"]
    ⟨2024, 1, 18⟩ "DOGEUSDT" 3 (by decide) (by decide) (by decide)
  exact h.2.2.trans (by decide)

/-- C5: for any previous state and any existence flag, every pair in
the top-N of the day ends with counter exactly 0 whatever its previous counter,
and a pair outside both the previous state and the top-N of the day does not
appear in the recomputed state. -/
theorem getNewTrackedPairs_topNZero
    (prev : TrackedData) (top50 : List String) (prev_exists : Bool)
    (date : Ymd) (p : String) :
    (p ∈ top50 →
      mapFind p (getNewTrackedPairs prev top50 prev_exists date).trackedPairs
        = some 0) ∧
    (p ∉ top50 → mapFind p prev.trackedPairs = none →
      mapFind p (getNewTrackedPairs prev top50 prev_exists date).trackedPairs
        = none) := by
  constructor
  · intro hmem
    cases prev_exists with
    | false =>
      have hred : getNewTrackedPairs prev top50 false date =
          ⟨date, initTopZero top50⟩ := rfl
      rw [hred]
      unfold initTopZero
      rw [mapFind_initTopZero]
      simp [hmem]
    | true =>
      unfold getNewTrackedPairs
      simp only [Bool.not_true, Bool.false_eq_true, if_false]
      rw [mapFind_foldl_preserve p _ prev.trackedPairs (initTopZero top50)
        (fun acc2 kv _ => by
          by_cases hq : kv.1 ∈ top50
          · simp [hq]
          · have hne : p ≠ kv.1 := fun hh => hq (hh ▸ hmem)
            simp [hq, mapFind_mapInsert_ne _ _ hne])]
      unfold initTopZero
      rw [mapFind_initTopZero]
      simp [hmem]
  · intro hmem hnone
    have hkeys : p ∉ keysOf prev.trackedPairs :=
      not_mem_of_mapFind_eq_none hnone
    cases prev_exists with
    | false =>
      have hred : getNewTrackedPairs prev top50 false date =
          ⟨date, initTopZero top50⟩ := rfl
      rw [hred]
      unfold initTopZero
      rw [mapFind_initTopZero]
      simp [hmem, mapFind]
    | true =>
      unfold getNewTrackedPairs
      simp only [Bool.not_true, Bool.false_eq_true, if_false]
      rw [mapFind_foldl_preserve p _ prev.trackedPairs (initTopZero top50)
        (fun acc2 kv hkv => by
          by_cases hq : kv.1 ∈ top50
          · simp [hq]
          · have hne : p ≠ kv.1 := by
              intro hh
              exact hkeys (hh ▸ (List.mem_map.mpr ⟨kv, hkv, rfl⟩))
            simp [hq, mapFind_mapInsert_ne _ _ hne])]
      unfold initTopZero
      rw [mapFind_initTopZero]
      simp [hmem, mapFind]

/-- C5 witness: BTCUSDT inside the current top-N resets from 7 to 0; XRPUSDT,
tracked by neither the previous state nor the top-N, stays absent. -/
theorem getNewTrackedPairs_topNZero_witness :
    mapFind "BTCUSDT"
      (getNewTrackedPairs ⟨⟨2024, 1, 17⟩, [("BTCUSDT", 7)]⟩ ["BTCUSDT"]
        true ⟨2024, 1, 18⟩).trackedPairs = some 0 ∧
    mapFind "XRPUSDT"
      (getNewTrackedPairs ⟨⟨2024, 1, 17⟩, [("BTCUSDT", 7)]⟩ ["BTCUSDT"]
        true ⟨2024, 1, 18⟩).trackedPairs = none :=
  ⟨(getNewTrackedPairs_topNZero _ _ _ _ _).1 (by decide),
   (getNewTrackedPairs_topNZero _ _ _ _ _).2 (by decide) (by decide)⟩

/-! ## OHLCV candles and the `ohlcv_data` table -/

/-- One OHLCV candle (`data_types.h`); the C++ `double` prices are
modelled as rationals, since no verified property computes with them. -/
structure Ohlcv where
  open_ : ℚ
  high : ℚ
  low : ℚ
  close : ℚ
  volume : ℚ
deriving DecidableEq

/-- Logical content of the `ohlcv_data` SQLite table: one row per
`(pair, date)` primary key. -/
abbrev OhlcvTable := List ((String × Int) × Ohlcv)

/-- `SELECT MAX(date) FROM ohlcv_data WHERE pair = ?`; `none` models the
NULL aggregate over zero rows. -/
def maxDateForPair (t : OhlcvTable) (p : String) : Option Int :=
  t.foldl
    (fun acc row =>
      if row.1.1 = p then
        some (match acc with
          | none => row.1.2
          | some m => max m row.1.2)
      else acc)
    none

/-- `DatabaseDownloader::computeDaysSinceLastStoredOHLCV`
(`database_db_helper.cpp`, lines 507-573). Per tracked pair:
`sqlite3_column_int` turns the NULL max into 0; 0 means "never stored" and
yields 100; a stored max at or after the current date is skipped (not
inserted into the plan); otherwise the plan entry is
`currentYMD - lastYMD` (difference of the integer YYYYMMDD encodings)
clamped above at 100. -/
def computeDaysSinceLastStoredOHLCV (t : OhlcvTable) (tracked : TrackedData)
    (currentDate : Ymd) : List (String × Int) :=
  let currentYMD := toYYYYMMDD currentDate
  tracked.trackedPairs.foldl
    (fun result kv =>
      let lastYMD := (maxDateForPair t kv.1).getD 0
      if lastYMD = 0 then mapInsert kv.1 100 result
      else if currentYMD ≤ lastYMD then result
      else
        let diff := currentYMD - lastYMD
        let diff2 := if 100 < diff then 100 else diff
        mapInsert kv.1 diff2 result)
    []

/-- The per-pair loop of `computeDaysSinceLastStoredOHLCV`, resolved for
one tracked pair `p` with duplicate-free keys. -/
theorem computeDays_fold_find (t : OhlcvTable) (cur : Int)
    (l : List (String × Int)) (p : String) (acc : List (String × Int))
    (hnd : (keysOf l).Nodup) (hmem : p ∈ keysOf l)
    (hacc : mapFind p acc = none) :
    mapFind p
      (l.foldl
        (fun result kv =>
          let lastYMD := (maxDateForPair t kv.1).getD 0
          if lastYMD = 0 then mapInsert kv.1 100 result
          else if cur ≤ lastYMD then result
          else
            let diff := cur - lastYMD
            let diff2 := if 100 < diff then 100 else diff
            mapInsert kv.1 diff2 result)
        acc) =
      (if (maxDateForPair t p).getD 0 = 0 then some 100
       else if cur ≤ (maxDateForPair t p).getD 0 then none
       else some (if 100 < cur - (maxDateForPair t p).getD 0 then 100
                  else cur - (maxDateForPair t p).getD 0)) := by
  induction l generalizing acc with
  | nil => simp [keysOf] at hmem
  | cons hd tl ih =>
    obtain ⟨q, w⟩ := hd
    simp only [keysOf, List.map_cons, List.nodup_cons] at hnd
    by_cases hq : q = p
    · subst hq
      rw [List.foldl_cons]
      have hpres : ∀ acc2,
          mapFind q
            (tl.foldl
              (fun result kv =>
                let lastYMD := (maxDateForPair t kv.1).getD 0
                if lastYMD = 0 then mapInsert kv.1 100 result
                else if cur ≤ lastYMD then result
                else
                  let diff := cur - lastYMD
                  let diff2 := if 100 < diff then 100 else diff
                  mapInsert kv.1 diff2 result)
              acc2) = mapFind q acc2 := by
        intro acc2
        refine mapFind_foldl_preserve q _ tl acc2 (fun acc3 kv hkv => ?_)
        have hne : q ≠ kv.1 := by
          intro hh
          exact hnd.1 (hh ▸ (List.mem_map.mpr ⟨kv, hkv, rfl⟩))
        dsimp only
        split_ifs with h1 h2 h3
        · exact mapFind_mapInsert_ne _ _ hne
        · rfl
        · exact mapFind_mapInsert_ne _ _ hne
        · exact mapFind_mapInsert_ne _ _ hne
      rw [hpres]
      dsimp only
      split_ifs with h1 h2 h3
      · exact mapFind_mapInsert_self _ _ _
      · exact hacc
      · exact mapFind_mapInsert_self _ _ _
      · exact mapFind_mapInsert_self _ _ _
    · have hmem2 : p ∈ keysOf tl := by
        rcases (by simpa [keysOf] using hmem : p = q ∨ p ∈ keysOf tl) with h | h
        · exact absurd h.symm hq
        · exact h
      rw [List.foldl_cons]
      refine ih _ (by simpa [keysOf] using hnd.2) hmem2 ?_
      have hne : p ≠ q := fun hh => hq hh.symm
      dsimp only
      split_ifs with h1 h2 h3
      · rw [mapFind_mapInsert_ne _ _ hne]
        exact hacc
      · exact hacc
      · rw [mapFind_mapInsert_ne _ _ hne]
        exact hacc
      · rw [mapFind_mapInsert_ne _ _ hne]
        exact hacc

/-- C1 (amended): for every tracked pair `p`, the backfill-plan entry of
`computeDaysSinceLastStoredOHLCV` is 100 when the pair has no stored rows,
the pair is absent from the plan when its stored maximum date is at or
after the target date, and otherwise the entry is the difference of the
integer YYYYMMDD encodings (target minus last stored) clamped above at
100 — not a count of whole calendar days. -/
theorem computeDaysSinceLastStoredOHLCV_spec
    (t : OhlcvTable) (tracked : TrackedData) (currentDate : Ymd) (p : String)
    (hnd : (keysOf tracked.trackedPairs).Nodup)
    (hmem : p ∈ keysOf tracked.trackedPairs) :
    ((maxDateForPair t p).getD 0 = 0 →
      mapFind p (computeDaysSinceLastStoredOHLCV t tracked currentDate) =
        some 100) ∧
    ((maxDateForPair t p).getD 0 ≠ 0 →
      toYYYYMMDD currentDate ≤ (maxDateForPair t p).getD 0 →
      mapFind p (computeDaysSinceLastStoredOHLCV t tracked currentDate) =
        none) ∧
    ((maxDateForPair t p).getD 0 ≠ 0 →
      (maxDateForPair t p).getD 0 < toYYYYMMDD currentDate →
      mapFind p (computeDaysSinceLastStoredOHLCV t tracked currentDate) =
        some (min 100 (toYYYYMMDD currentDate - (maxDateForPair t p).getD 0))) := by
  have hfold := computeDays_fold_find t (toYYYYMMDD currentDate)
    tracked.trackedPairs p [] hnd hmem rfl
  have hred :
      mapFind p (computeDaysSinceLastStoredOHLCV t tracked currentDate) =
        (if (maxDateForPair t p).getD 0 = 0 then some 100
         else if toYYYYMMDD currentDate ≤ (maxDateForPair t p).getD 0 then none
         else some
           (if 100 < toYYYYMMDD currentDate - (maxDateForPair t p).getD 0
            then 100
            else toYYYYMMDD currentDate - (maxDateForPair t p).getD 0)) := by
    unfold computeDaysSinceLastStoredOHLCV
    exact hfold
  refine ⟨?_, ?_, ?_⟩
  · intro h0
    rw [hred, if_pos h0]
  · intro h0 hle
    rw [hred, if_neg h0, if_pos hle]
  · intro h0 hlt
    rw [hred, if_neg h0, if_neg (by omega)]
    have hmin :
        (if 100 < toYYYYMMDD currentDate - (maxDateForPair t p).getD 0
         then (100 : Int)
         else toYYYYMMDD currentDate - (maxDateForPair t p).getD 0) =
          min 100 (toYYYYMMDD currentDate - (maxDateForPair t p).getD 0) := by
      split <;> omega
    rw [hmin]

/-- A concrete candle used by the closed evaluation theorems. -/
def candle0 : Ohlcv := ⟨1, 1, 1, 1, 1⟩

/-- C1 counterexample: last stored 2024-01-31 (encoded 20240131), target
2024-02-01 (encoded 20240201). The claim says the plan entry is the whole
calendar-day count 1; the code computes 20240201 - 20240131 = 70. -/
theorem computeDaysSinceLastStoredOHLCV_counterexample :
    mapFind "BTCUSDT"
      (computeDaysSinceLastStoredOHLCV [(("BTCUSDT", 20240131), candle0)]
        ⟨⟨2024, 2, 1⟩, [("BTCUSDT", 0)]⟩ ⟨2024, 2, 1⟩) = some 70 ∧
    mapFind "BTCUSDT"
      (computeDaysSinceLastStoredOHLCV [(("BTCUSDT", 20240131), candle0)]
        ⟨⟨2024, 2, 1⟩, [("BTCUSDT", 0)]⟩ ⟨2024, 2, 1⟩) ≠ some 1 := by
  constructor
  · decide
  · decide

/-- C1 witness: BTCUSDT last stored 2024-01-10 with target 2024-01-18
gets plan entry 8 (spec scenario C); ETHUSDT with no stored rows gets
100. -/
theorem computeDaysSinceLastStoredOHLCV_spec_witness :
    mapFind "BTCUSDT"
      (computeDaysSinceLastStoredOHLCV [(("BTCUSDT", 20240110), candle0)]
        ⟨⟨2024, 1, 18⟩, [("BTCUSDT", 0), ("ETHUSDT", 0)]⟩ ⟨2024, 1, 18⟩) =
      some 8 ∧
    mapFind "ETHUSDT"
      (computeDaysSinceLastStoredOHLCV [(("BTCUSDT", 20240110), candle0)]
        ⟨⟨2024, 1, 18⟩, [("BTCUSDT", 0), ("ETHUSDT", 0)]⟩ ⟨2024, 1, 18⟩) =
      some 100 := by
  have h1 := computeDaysSinceLastStoredOHLCV_spec
    [(("BTCUSDT", 20240110), candle0)]
    ⟨⟨2024, 1, 18⟩, [("BTCUSDT", 0), ("ETHUSDT", 0)]⟩ ⟨2024, 1, 18⟩
    "BTCUSDT" (by decide) (by decide)
  have h2 := computeDaysSinceLastStoredOHLCV_spec
    [(("BTCUSDT", 20240110), candle0)]
    ⟨⟨2024, 1, 18⟩, [("BTCUSDT", 0), ("ETHUSDT", 0)]⟩ ⟨2024, 1, 18⟩
    "ETHUSDT" (by decide) (by decide)
  exact ⟨(h1.2.2 (by decide) (by decide)).trans (by decide),
    h2.1 (by decide)⟩

/-! ## `OHLCVData`, pruning and storing
(`data_types.h`, `database_downloader.cpp`, `database_db_helper.cpp`) -/

/-- `OHLCVData` (`data_types.h`): pair → date → candle. The C++ date keys
are `unsigned int` YYYYMMDD encodings; they are modelled as `Int` (every
encoding this program produces is nonnegative). -/
structure OHLCVData where
  data : List (String × List (Int × Ohlcv))
deriving DecidableEq

/-- Lookup `data[pair][date]` in an `OHLCVData`. -/
def ohlcvLookup (x : OHLCVData) (p : String) (d : Int) : Option Ohlcv :=
  match mapFind p x.data with
  | none => none
  | some dm => mapFind d dm

/-- The two erase loops of `pruneFutureCandles` on the underlying list:
drop every candle entry with date above the cutoff, then drop every pair
whose per-date map became empty. -/
def pruneList (l : List (String × List (Int × Ohlcv))) (cutoffYMD : Int) :
    List (String × List (Int × Ohlcv)) :=
  (l.map (fun pr => (pr.1, pr.2.filter (fun e => decide (e.1 ≤ cutoffYMD))))).filter
    (fun pr => !pr.2.isEmpty)

/-- `pruneFutureCandles` (`database_downloader.cpp`, lines 62-86). The C++
comparison `it->first > cutoffYMD` promotes the cutoff to unsigned; for the
nonnegative encodings this system produces it coincides with the integer
comparison used here. -/
def pruneFutureCandles (x : OHLCVData) (cutoffDate : Ymd) : OHLCVData :=
  { data := pruneList x.data (toYYYYMMDD cutoffDate) }

/-- `DatabaseDownloader::storeDataOHLCV` (`database_db_helper.cpp`, lines
188-249): the empty-data early return is not an error; otherwise one
`INSERT ... ON CONFLICT(pair, date) DO UPDATE` upsert per candle row. -/
def storeDataOHLCV (tbl : OhlcvTable) (x : OHLCVData) : OhlcvTable :=
  if x.data.isEmpty then tbl
  else
    x.data.foldl
      (fun t pr => pr.2.foldl (fun t2 e => mapInsert (pr.1, e.1) e.2 t2) t)
      tbl

theorem pruneList_cons (q : String) (dm0 : List (Int × Ohlcv))
    (tl : List (String × List (Int × Ohlcv))) (cut : Int) :
    pruneList ((q, dm0) :: tl) cut =
      if (dm0.filter (fun e => decide (e.1 ≤ cut))).isEmpty then
        pruneList tl cut
      else
        (q, dm0.filter (fun e => decide (e.1 ≤ cut))) :: pruneList tl cut := by
  unfold pruneList
  rw [List.map_cons, List.filter_cons]
  by_cases h : (dm0.filter (fun e => decide (e.1 ≤ cut))).isEmpty
  · simp [h]
  · simp [h]

theorem keysOf_pruneList_subset {k : String}
    {l : List (String × List (Int × Ohlcv))} {cut : Int}
    (h : k ∈ keysOf (pruneList l cut)) : k ∈ keysOf l := by
  unfold pruneList at h
  simp only [keysOf, List.mem_map] at h ⊢
  obtain ⟨pr, hpr, hk⟩ := h
  obtain ⟨hmem, _⟩ := List.mem_filter.mp hpr
  obtain ⟨pr3, hpr3, hpr4⟩ := List.mem_map.mp hmem
  exact ⟨pr3, hpr3, by rw [← hpr4] at hk; exact hk⟩

theorem mapFind_filter_le (d cut : Int) (dm : List (Int × Ohlcv))
    (hd : d ≤ cut) :
    mapFind d (dm.filter (fun e => decide (e.1 ≤ cut))) = mapFind d dm := by
  induction dm with
  | nil => rfl
  | cons e tl ih =>
    obtain ⟨e1, c⟩ := e
    rw [List.filter_cons]
    by_cases he : e1 = d
    · subst he
      rw [if_pos (by simpa using hd)]
      simp [mapFind]
    · by_cases hp : e1 ≤ cut
      · rw [if_pos (by simpa using hp)]
        simp [mapFind, he, ih]
      · rw [if_neg (by simpa using hp)]
        rw [ih]
        simp [mapFind, he]

/-- Characterization of the binding of a pair after pruning, for duplicate-free
pair keys. -/
theorem mapFind_pruneList (l : List (String × List (Int × Ohlcv)))
    (cut : Int) (p : String) (hnd : (keysOf l).Nodup) :
    mapFind p (pruneList l cut) =
      match mapFind p l with
      | none => none
      | some dm =>
        if (dm.filter (fun e => decide (e.1 ≤ cut))).isEmpty then none
        else some (dm.filter (fun e => decide (e.1 ≤ cut))) := by
  induction l with
  | nil => rfl
  | cons hd tl ih =>
    obtain ⟨q, dm0⟩ := hd
    simp only [keysOf, List.map_cons, List.nodup_cons] at hnd
    by_cases hq : q = p
    · subst hq
      rw [pruneList_cons]
      by_cases hemp : (dm0.filter (fun e => decide (e.1 ≤ cut))).isEmpty
      · rw [if_pos hemp]
        have hnone : mapFind q (pruneList tl cut) = none := by
          refine mapFind_eq_none_of_not_mem (fun hmem => ?_)
          exact hnd.1 (by simpa [keysOf] using keysOf_pruneList_subset hmem)
        rw [hnone]
        simp [mapFind, hemp]
      · rw [if_neg hemp]
        simp [mapFind, hemp]
    · rw [pruneList_cons]
      have hstep : mapFind p ((q, dm0) :: tl) = mapFind p tl := by
        simp [mapFind, hq]
      rw [hstep]
      by_cases hemp : (dm0.filter (fun e => decide (e.1 ≤ cut))).isEmpty
      · rw [if_pos hemp]
        exact ih (by simpa [keysOf] using hnd.2)
      · rw [if_neg hemp]
        have hskip : mapFind p ((q, dm0.filter (fun e => decide (e.1 ≤ cut)))
            :: pruneList tl cut) = mapFind p (pruneList tl cut) := by
          simp [mapFind, hq]
        rw [hskip]
        exact ih (by simpa [keysOf] using hnd.2)

theorem pruneList_dates_le {pr : String × List (Int × Ohlcv)}
    {l : List (String × List (Int × Ohlcv))} {cut : Int}
    (hpr : pr ∈ pruneList l cut) {e : Int × Ohlcv} (he : e ∈ pr.2) :
    e.1 ≤ cut := by
  unfold pruneList at hpr
  obtain ⟨hpr2, _⟩ := List.mem_filter.mp hpr
  obtain ⟨pr3, _, hpr4⟩ := List.mem_map.mp hpr2
  rw [← hpr4] at he
  simpa using (List.mem_filter.mp he).2

/-- C6: after `pruneFutureCandles`, no remaining (pair, date) entry has a
date exceeding the target date; every pair whose date map became empty is
removed entirely; every candle dated at or before the target is left
unchanged; and persisting the pruned set with `storeDataOHLCV` never
touches any date key above the target. -/
theorem pruneFutureCandles_spec (x : OHLCVData) (cutoffDate : Ymd)
    (p : String) (d : Int) (hnd : (keysOf x.data).Nodup) :
    (∀ c, ohlcvLookup (pruneFutureCandles x cutoffDate) p d = some c →
      d ≤ toYYYYMMDD cutoffDate) ∧
    (∀ pr ∈ (pruneFutureCandles x cutoffDate).data, pr.2 ≠ []) ∧
    (d ≤ toYYYYMMDD cutoffDate →
      ohlcvLookup (pruneFutureCandles x cutoffDate) p d =
        ohlcvLookup x p d) ∧
    (toYYYYMMDD cutoffDate < d → ∀ tbl : OhlcvTable,
      mapFind (p, d) (storeDataOHLCV tbl (pruneFutureCandles x cutoffDate)) =
        mapFind (p, d) tbl) := by
  refine ⟨?_, ?_, ?_, ?_⟩
  · intro c h
    unfold ohlcvLookup pruneFutureCandles at h
    rcases hfind : mapFind p (pruneList x.data (toYYYYMMDD cutoffDate))
      with _ | dmF
    · rw [hfind] at h
      exact absurd h (by simp)
    · rw [hfind] at h
      exact pruneList_dates_le (mapFind_mem hfind) (mapFind_mem h)
  · intro pr hpr
    unfold pruneFutureCandles pruneList at hpr
    have h2 := (List.mem_filter.mp hpr).2
    intro hnil
    rw [hnil] at h2
    simp at h2
  · intro hd
    unfold ohlcvLookup pruneFutureCandles
    rw [mapFind_pruneList x.data (toYYYYMMDD cutoffDate) p hnd]
    rcases hfind : mapFind p x.data with _ | dm
    · rfl
    · dsimp only
      by_cases hemp :
        (dm.filter (fun e => decide (e.1 ≤ toYYYYMMDD cutoffDate))).isEmpty
      · rw [if_pos hemp]
        dsimp only
        rcases hdc : mapFind d dm with _ | c
        · rfl
        · exfalso
          have hmemf : (d, c) ∈
              dm.filter (fun e => decide (e.1 ≤ toYYYYMMDD cutoffDate)) :=
            List.mem_filter.mpr ⟨mapFind_mem hdc, by simpa using hd⟩
          rw [List.isEmpty_iff] at hemp
          rw [hemp] at hmemf
          simp at hmemf
      · rw [if_neg hemp]
        dsimp only
        exact mapFind_filter_le d (toYYYYMMDD cutoffDate) dm hd
  · intro hd tbl
    unfold storeDataOHLCV
    by_cases hempd : (pruneFutureCandles x cutoffDate).data.isEmpty
    · rw [if_pos hempd]
    · rw [if_neg hempd]
      refine mapFind_foldl_preserve (p, d) _ _ tbl (fun t2 pr hpr => ?_)
      refine mapFind_foldl_preserve (p, d) _ _ t2 (fun t3 e he => ?_)
      refine mapFind_mapInsert_ne _ _ (fun hk => ?_)
      have hle : e.1 ≤ toYYYYMMDD cutoffDate := pruneList_dates_le hpr he
      have hd2 : d = e.1 := congrArg Prod.snd hk
      omega

/-- A second concrete candle, distinct from `candle0`. -/
def candle1 : Ohlcv := ⟨2, 3, 1, 2, 5⟩

/-- C6 witness: pruning with target 2024-01-18 keeps the 2024-01-18 candle
unchanged, and storing the pruned set leaves the (future) 2024-01-19 key
absent from an empty table. -/
theorem pruneFutureCandles_spec_witness :
    ohlcvLookup
      (pruneFutureCandles
        ⟨[("BTCUSDT", [(20240118, candle0), (20240119, candle1)]),
          ("ETHUSDT", [(20240119, candle1)])]⟩ ⟨2024, 1, 18⟩)
      "BTCUSDT" 20240118 =
      ohlcvLookup
        ⟨[("BTCUSDT", [(20240118, candle0), (20240119, candle1)]),
          ("ETHUSDT", [(20240119, candle1)])]⟩ "BTCUSDT" 20240118 ∧
    mapFind ("ETHUSDT", (20240119 : Int))
      (storeDataOHLCV []
        (pruneFutureCandles
          ⟨[("BTCUSDT", [(20240118, candle0), (20240119, candle1)]),
            ("ETHUSDT", [(20240119, candle1)])]⟩ ⟨2024, 1, 18⟩)) =
      mapFind ("ETHUSDT", (20240119 : Int)) ([] : OhlcvTable) :=
  ⟨(pruneFutureCandles_spec
      ⟨[("BTCUSDT", [(20240118, candle0), (20240119, candle1)]),
        ("ETHUSDT", [(20240119, candle1)])]⟩ ⟨2024, 1, 18⟩
      "BTCUSDT" 20240118 (by decide)).2.2.1 (by decide),
   (pruneFutureCandles_spec
      ⟨[("BTCUSDT", [(20240118, candle0), (20240119, candle1)]),
        ("ETHUSDT", [(20240119, candle1)])]⟩ ⟨2024, 1, 18⟩
      "ETHUSDT" 20240119 (by decide)).2.2.2 (by decide) []⟩

/-- C7: `storeDataOHLCV` is an upsert on the (pair, date) key: writing the
same key twice keeps exactly the values of the second write, writing the same
candle twice is idempotent on the whole table, and no other stored
row is affected. -/
theorem storeDataOHLCV_upsert (tbl : OhlcvTable) (p : String) (d : Int)
    (c1 c2 : Ohlcv) (k2 : String × Int) (hk : k2 ≠ (p, d)) :
    mapFind (p, d)
      (storeDataOHLCV (storeDataOHLCV tbl ⟨[(p, [(d, c1)])]⟩)
        ⟨[(p, [(d, c2)])]⟩) = some c2 ∧
    storeDataOHLCV (storeDataOHLCV tbl ⟨[(p, [(d, c1)])]⟩)
        ⟨[(p, [(d, c1)])]⟩ =
      storeDataOHLCV tbl ⟨[(p, [(d, c1)])]⟩ ∧
    mapFind k2
      (storeDataOHLCV (storeDataOHLCV tbl ⟨[(p, [(d, c1)])]⟩)
        ⟨[(p, [(d, c2)])]⟩) = mapFind k2 tbl := by
  have hsingle : ∀ (t : OhlcvTable) (c : Ohlcv),
      storeDataOHLCV t ⟨[(p, [(d, c)])]⟩ = mapInsert (p, d) c t :=
    fun t c => rfl
  refine ⟨?_, ?_, ?_⟩
  · rw [hsingle, hsingle, mapFind_mapInsert_self]
  · rw [hsingle, hsingle, mapInsert_mapInsert]
  · rw [hsingle, hsingle, mapFind_mapInsert_ne _ _ hk,
      mapFind_mapInsert_ne _ _ hk]

/-- C7 witness: writing (BTCUSDT, 20240118) twice with different candles
stores the second candle, and the unrelated ETHUSDT key stays absent. -/
theorem storeDataOHLCV_upsert_witness :
    mapFind ("BTCUSDT", (20240118 : Int))
      (storeDataOHLCV
        (storeDataOHLCV [] ⟨[("BTCUSDT", [(20240118, candle0)])]⟩)
        ⟨[("BTCUSDT", [(20240118, candle1)])]⟩) = some candle1 ∧
    mapFind ("ETHUSDT", (20240118 : Int))
      (storeDataOHLCV
        (storeDataOHLCV [] ⟨[("BTCUSDT", [(20240118, candle0)])]⟩)
        ⟨[("BTCUSDT", [(20240118, candle1)])]⟩) =
      mapFind ("ETHUSDT", (20240118 : Int)) ([] : OhlcvTable) :=
  ⟨(storeDataOHLCV_upsert [] "BTCUSDT" 20240118 candle0 candle1
      ("ETHUSDT", 20240118) (by decide)).1,
   (storeDataOHLCV_upsert [] "BTCUSDT" 20240118 candle0 candle1
      ("ETHUSDT", 20240118) (by decide)).2.2⟩

/-! ## `getTop50PairsByVolume` (`database_binance_fetcher.cpp`, lines 25-74) -/

/-- One entry of the 24h-ticker JSON array: the `symbol` string and the
`quoteVolume` numeric string (the only fields the code reads). -/
structure TickerItem where
  symbol : String
  quoteVolume : String
deriving DecidableEq

/-- Outcome of `json::parse` on the ticker response body. -/
inductive TickerResponse where
  | malformed
  | tickers (items : List TickerItem)

/-- Outcome of the CURL transport for the ticker request:
`curl_easy_init` failure, `curl_easy_perform` failure, or a body. -/
inductive Transport where
  | curlInitFailure
  | performFailure
  | success (resp : TickerResponse)

/-- Numeric value of a digit string (most significant first). -/
def digitsVal (cs : List Char) : Nat :=
  cs.foldl (fun a c => a * 10 + (c.toNat - 48)) 0

/-- Mantissa parser behind the `std::stod` model: digits, an optional
point, and fraction digits; fails (`none`) when no digit is present.
Exponent, hex and inf/nan forms are outside the decimal strings this
program feeds to `std::stod` and are not modelled. -/
def parseUnsignedDecimal (cs : List Char) : Option ℚ :=
  let intPart := cs.takeWhile Char.isDigit
  let rest := cs.dropWhile Char.isDigit
  let fracPart :=
    match rest with
    | '.' :: r => r.takeWhile Char.isDigit
    | _ => []
  if intPart.isEmpty && fracPart.isEmpty then none
  else some ((digitsVal intPart : ℚ) +
    (digitsVal fracPart : ℚ) / ((10 : ℚ) ^ fracPart.length))

/-- `std::stod`: skip leading whitespace, read an optional sign and a
decimal mantissa; `none` models the `std::invalid_argument` throw when no
conversion is possible. -/
def stodQ (s : String) : Option ℚ :=
  let t := s.data.dropWhile (fun c => decide (c = ' ') || decide (c = '\t'))
  match t with
  | '-' :: rest => (parseUnsignedDecimal rest).map (fun q => -q)
  | '+' :: rest => parseUnsignedDecimal rest
  | cs => parseUnsignedDecimal cs

/-- The filter `symbol.size() > 4 && symbol.substr(symbol.size()-4) ==
"USDT"`, on the byte sequence of the symbol. -/
def isUsdtPerp (s : String) : Bool :=
  4 < s.data.length &&
    decide (s.data.drop (s.data.length - 4) = ['U', 'S', 'D', 'T'])

/-- The collection loop of `getTop50PairsByVolume`: for each item whose
symbol passes the USDT-perpetual filter, `std::stod(quoteVolume)`;
a failed conversion throws out of the loop (`Except.error`). -/
def collectUsdtPairs : List TickerItem → Except Unit (List (String × ℚ))
  | [] => .ok []
  | it :: rest =>
    if isUsdtPerp it.symbol then
      match stodQ it.quoteVolume with
      | none => .error ()
      | some v =>
        match collectUsdtPairs rest with
        | .error e => .error e
        | .ok tail => .ok ((it.symbol, v) :: tail)
    else collectUsdtPairs rest

/-- Insertion step of the descending sort by quote volume. -/
def insertSortedDesc (x : String × ℚ) :
    List (String × ℚ) → List (String × ℚ)
  | [] => [x]
  | y :: rest => if y.2 < x.2 then x :: y :: rest else y :: insertSortedDesc x rest

/-- `std::sort` with comparator `a.quoteVol > b.quoteVol`: a descending
sort by quote volume (the source leaves the order of equal volumes
unspecified; the spec marks ties as dont-care). -/
def sortByVolumeDesc (l : List (String × ℚ)) : List (String × ℚ) :=
  l.foldr insertSortedDesc []

/-- `DatabaseDownloader::getTop50PairsByVolume`
(`database_binance_fetcher.cpp`, lines 25-74): CURL failures return the
empty result set; `json::parse` and `std::stod` failures raise exceptions
that are not caught in this function. On success, the first
`min(50, size)` symbols of the descending sort form the result set. -/
def getTop50PairsByVolume (t : Transport) : Except Unit (List String) :=
  match t with
  | .curlInitFailure => .ok []
  | .performFailure => .ok []
  | .success .malformed => .error ()
  | .success (.tickers items) =>
    match collectUsdtPairs items with
    | .error e => .error e
    | .ok pairs => .ok (((sortByVolumeDesc pairs).take 50).map Prod.fst)

theorem collectUsdtPairs_error (items : List TickerItem) (it : TickerItem)
    (hmem : it ∈ items) (husdt : isUsdtPerp it.symbol = true)
    (hbad : stodQ it.quoteVolume = none) :
    collectUsdtPairs items = .error () := by
  induction items with
  | nil => simp at hmem
  | cons hd tl ih =>
    rcases List.mem_cons.mp hmem with h | h
    · subst h
      unfold collectUsdtPairs
      rw [if_pos husdt, hbad]
    · unfold collectUsdtPairs
      by_cases hh : isUsdtPerp hd.symbol
      · rw [if_pos hh]
        rcases hstod : stodQ hd.quoteVolume with _ | v
        · rfl
        · rw [ih h]
      · rw [if_neg hh]
        exact ih h

/-- C2 (amended): both CURL transport failures make
`getTop50PairsByVolume` return the empty set; but a parse failure —
malformed JSON, or a quoteVolume string with no numeric prefix on a
USDT-suffixed symbol — raises an exception that propagates to the caller
instead of returning the empty set. -/
theorem getTop50PairsByVolume_errorContainment :
    getTop50PairsByVolume .curlInitFailure = .ok [] ∧
    getTop50PairsByVolume .performFailure = .ok [] ∧
    getTop50PairsByVolume (.success .malformed) = .error () ∧
    (∀ (items : List TickerItem) (it : TickerItem), it ∈ items →
      isUsdtPerp it.symbol = true → stodQ it.quoteVolume = none →
      getTop50PairsByVolume (.success (.tickers items)) = .error ()) := by
  refine ⟨rfl, rfl, rfl, ?_⟩
  intro items it hmem husdt hbad
  unfold getTop50PairsByVolume
  dsimp only
  rw [collectUsdtPairs_error items it hmem husdt hbad]

/-- C2 witness: a USDT-suffixed ticker whose quoteVolume is the
non-numeric string "abc" makes the whole call raise. -/
theorem getTop50PairsByVolume_errorContainment_witness :
    getTop50PairsByVolume
      (.success (.tickers [⟨"ABCUSDT", "abc"⟩])) = .error () :=
  getTop50PairsByVolume_errorContainment.2.2.2 [⟨"ABCUSDT", "abc"⟩]
    ⟨"ABCUSDT", "abc"⟩ (by decide) (by decide) (by decide)

/-- C2 counterexample: on a malformed ticker response the function does
not return the empty set — the `json::parse` exception escapes. -/
theorem getTop50PairsByVolume_counterexample :
    getTop50PairsByVolume (.success .malformed) = .error () ∧
    getTop50PairsByVolume (.success .malformed) ≠ .ok [] :=
  ⟨rfl, fun h => Except.noConfusion h⟩

/-! ## Config handler (`config_handler.h`) -/

/-- The two snapshot slots of `ConfigHandler` (`config_handler.h`):
the applied `currentConfig` and the pending `nextConfig`, both guarded by
one mutex (the lock makes each call atomic; the model is the sequential
effect of one call). -/
structure ConfigHandlerState (C : Type) where
  currentConfig : Option C
  nextConfig : Option C
deriving DecidableEq

/-- `ConfigHandler::consumeNextConfig` (`config_handler.h`, lines 93-101):
with no pending config, return false leaving `out` untouched; otherwise
copy the whole pending snapshot into `out`, clear the slot and return
true. Result = (return value, out parameter after the call, handler state
after the call). -/
def consumeNextConfig {C : Type} (s : ConfigHandlerState C) (out : C) :
    Bool × C × ConfigHandlerState C :=
  match s.nextConfig with
  | none => (false, out, s)
  | some c => (true, c, { s with nextConfig := none })

/-- C8: `consumeNextConfig` either consumes the complete already-validated
pending snapshot and clears the pending slot (an immediate second call
returns false), or returns false and leaves the out-parameter untouched;
no partial snapshot is observable. -/
theorem consumeNextConfig_spec {C : Type} (s : ConfigHandlerState C)
    (out out2 : C) :
    (∀ c, s.nextConfig = some c →
      consumeNextConfig s out = (true, c, { s with nextConfig := none }) ∧
      (consumeNextConfig (consumeNextConfig s out).2.2 out2).1 = false) ∧
    (s.nextConfig = none → consumeNextConfig s out = (false, out, s)) := by
  constructor
  · intro c hc
    constructor
    · simp [consumeNextConfig, hc]
    · simp [consumeNextConfig, hc]
  · intro hc
    simp [consumeNextConfig, hc]

/-- C8 witness: a pending config 2 is consumed whole and the slot
cleared; with an empty slot the out-parameter 9 is untouched. -/
theorem consumeNextConfig_spec_witness :
    consumeNextConfig (⟨some 1, some 2⟩ : ConfigHandlerState Nat) 7 =
      (true, 2, ⟨some 1, none⟩) ∧
    (consumeNextConfig
      (consumeNextConfig (⟨some 1, some 2⟩ : ConfigHandlerState Nat) 7).2.2
      8).1 = false ∧
    consumeNextConfig (⟨some 1, none⟩ : ConfigHandlerState Nat) 9 =
      (false, 9, ⟨some 1, none⟩) :=
  ⟨((consumeNextConfig_spec ⟨some 1, some 2⟩ 7 8).1 2 rfl).1,
   ((consumeNextConfig_spec ⟨some 1, some 2⟩ 7 8).1 2 rfl).2,
   (consumeNextConfig_spec ⟨some 1, none⟩ 9 0).2 rfl⟩

/-! ## Date text: `formatYMD` (`time_utils.cpp`, lines 108-120) and its
re-parsing in `getTrackedPairs` (`database_pairs_tracker.cpp`) -/

/-- The decimal digit character of `n % 10`. -/
def digitChar (n : Nat) : Char :=
  ['0', '1', '2', '3', '4', '5', '6', '7', '8', '9'].getD (n % 10) '0'

/-- Year text of the fmt "%Y" conversion on a `std::tm`: zero-padded to
four digits for years 0-9999, all digits for larger years. -/
def pad4 (n : Nat) : List Char :=
  if n < 10000 then
    [digitChar (n / 1000), digitChar (n / 100), digitChar (n / 10),
      digitChar n]
  else (Nat.repr n).data

/-- Month/day text of the fmt "%m" / "%d" conversions: zero-padded to two
digits (months and days are at most two digits in every reachable use). -/
def pad2 (n : Nat) : List Char :=
  if n < 100 then [digitChar (n / 10), digitChar n]
  else (Nat.repr n).data

/-- `formatYMD` (`time_utils.cpp`): the "%Y-%m-%d" text of a date. -/
def formatYMD (x : Ymd) : List Char :=
  (if x.y < 0 then '-' :: pad4 (-x.y).toNat else pad4 x.y.toNat) ++
    '-' :: (pad2 x.m ++ '-' :: pad2 x.d)

/-- `std::string::substr(pos, count)`: throws `std::out_of_range`
(modelled by `none`) iff `pos > size()`; otherwise the clamped slice. -/
def substrOpt (s : List Char) (pos count : Nat) : Option (List Char) :=
  if s.length < pos then none else some ((s.drop pos).take count)

/-- Sign detection of `std::stoi` on the whitespace-stripped text. -/
def stoiSign (t : List Char) : Bool := decide (t.head? = some '-')

/-- The text after the optional sign. -/
def stoiBody (t : List Char) : List Char :=
  if t.head? = some '-' ∨ t.head? = some '+' then t.tail else t

/-- `std::stoi`: skip whitespace, read an optional sign and then a digit
prefix; `none` models the `std::invalid_argument` throw when no digit
follows. -/
def stoiChars (s : List Char) : Option Int :=
  let t := s.dropWhile (fun c => decide (c = ' ') || decide (c = '\t'))
  let ds := (stoiBody t).takeWhile Char.isDigit
  if ds.isEmpty then none
  else if stoiSign t then some (-(digitsVal ds : Int))
  else some ((digitsVal ds : Int))

/-- `month{unsigned}` validity as checked on the `stoi` result: on every
value a two-character substring can produce, this direct range check
agrees with the C++ path (cast to unsigned, truncation to the 8-bit
`chrono` field, then `ok()`). -/
def monthIntOk (v : Int) : Bool := 1 ≤ v && v ≤ 12

/-- `day{unsigned}` validity as checked on the `stoi` result (same
remark as `monthIntOk`). -/
def dayIntOk (v : Int) : Bool := 1 ≤ v && v ≤ 31

/-- The date-parsing block of `getTrackedPairs`
(`database_pairs_tracker.cpp`, lines 40-53): `stoi` of the substrings at
offsets 0-3, 5-6 and 8-9, the three `ok()` checks, and the `EMPTY_DATE`
fallback for invalid components. An out-of-range `substr` or a digitless
`stoi` throws (`Except.error`). -/
def parseTrackedDate (ds : List Char) : Except Unit Ymd :=
  match substrOpt ds 0 4 with
  | none => .error ()
  | some s1 =>
    match stoiChars s1 with
    | none => .error ()
    | some y =>
      match substrOpt ds 5 2 with
      | none => .error ()
      | some s2 =>
        match stoiChars s2 with
        | none => .error ()
        | some mi =>
          match substrOpt ds 8 2 with
          | none => .error ()
          | some s3 =>
            match stoiChars s3 with
            | none => .error ()
            | some di =>
              if yearOk y && monthIntOk mi && dayIntOk di then
                .ok ⟨y, mi.toNat, di.toNat⟩
              else .ok EMPTY_DATE

/-- Wrap of a JSON integer through `get<unsigned int>()` and the implicit
conversion back into the 32-bit `int` map value (identity on every
in-range counter). -/
def wrap32 (v : Int) : Int :=
  (v + 2147483648) % 4294967296 - 2147483648

/-- One row of the `tracked_pairs` table: the `date` TEXT column verbatim
(the reader slices it at fixed offsets) and the `json` TEXT column,
represented by the key-sorted object it parses to (`nlohmann::json`
objects round-trip exactly through `dump`/`parse`). -/
abbrev TrackedRow := List Char × List (String × Int)

/-- `DatabaseDownloader::getTrackedPairs` (`database_pairs_tracker.cpp`,
lines 19-68) on the logical row: no row yields `EMPTY_DATE` with an empty
map; otherwise parse the date text and rebuild the pair → days map from
the JSON object, each value read through `get<unsigned int>()`. -/
def getTrackedPairs (row : Option TrackedRow) : Except Unit TrackedData :=
  match row with
  | none => .ok { date := EMPTY_DATE, trackedPairs := [] }
  | some (ds, obj) =>
    match parseTrackedDate ds with
    | .error e => .error e
    | .ok date =>
      .ok { date := date,
            trackedPairs :=
              obj.foldl (fun acc kv => mapInsert kv.1 (wrap32 kv.2) acc) [] }

/-- Logical state of the SQLite database file: the write-once
`date_of_start` marker, the single `tracked_pairs` row and the
`ohlcv_data` table. -/
structure Db where
  dateOfStart : Option String
  trackedRow : Option TrackedRow
  ohlcv : OhlcvTable
deriving DecidableEq

/-- `DatabaseDownloader::storeTrackedPairs` (`database_db_helper.cpp`,
lines 124-175): delete the single `tracked_pairs` row, then insert
`(formatYMD(date), dump of the pair → days object)`. -/
def storeTrackedPairs (db : Db) (data : TrackedData) : Db :=
  { db with trackedRow := some (formatYMD data.date, data.trackedPairs) }

theorem digitChar_props (n : Nat) :
    (digitChar n).isDigit = true ∧ digitChar n ≠ ' ' ∧ digitChar n ≠ '\t' ∧
    digitChar n ≠ '-' ∧ digitChar n ≠ '+' ∧
    (digitChar n).toNat = 48 + n % 10 := by
  have h : n % 10 = 0 ∨ n % 10 = 1 ∨ n % 10 = 2 ∨ n % 10 = 3 ∨ n % 10 = 4 ∨
      n % 10 = 5 ∨ n % 10 = 6 ∨ n % 10 = 7 ∨ n % 10 = 8 ∨ n % 10 = 9 := by
    omega
  unfold digitChar
  rcases h with h | h | h | h | h | h | h | h | h | h <;> rw [h] <;> decide

theorem takeWhile_all {α : Type} {p : α → Bool} {cs : List α}
    (h : ∀ c ∈ cs, p c = true) : cs.takeWhile p = cs := by
  induction cs with
  | nil => rfl
  | cons c tl ih =>
    rw [List.takeWhile_cons, h c (by simp)]
    simp [ih (fun c2 hc2 => h c2 (by simp [hc2]))]

theorem stoiChars_digitPrefix (k : Nat) (rest : List Char)
    (hall : ∀ c ∈ rest, c.isDigit = true) :
    stoiChars (digitChar k :: rest) =
      some ((digitsVal (digitChar k :: rest) : Nat) : Int) := by
  obtain ⟨hdig, hsp, htb, hmin, hplus, _⟩ := digitChar_props k
  have hdw : (digitChar k :: rest).dropWhile
      (fun c => decide (c = ' ') || decide (c = '\t')) =
        digitChar k :: rest := by
    rw [List.dropWhile_cons]
    simp [hsp, htb]
  have hsign : stoiSign (digitChar k :: rest) = false := by
    unfold stoiSign
    simp only [List.head?_cons]
    exact decide_eq_false (fun hh => hmin (Option.some.inj hh))
  have hbody : stoiBody (digitChar k :: rest) = digitChar k :: rest := by
    unfold stoiBody
    rw [if_neg]
    rintro (hh | hh)
    · exact hmin (Option.some.inj (by simpa using hh))
    · exact hplus (Option.some.inj (by simpa using hh))
  have htake : (digitChar k :: rest).takeWhile Char.isDigit =
      digitChar k :: rest :=
    takeWhile_all (fun c hc => by
      rcases List.mem_cons.mp hc with h | h
      · rw [h]
        exact hdig
      · exact hall c h)
  simp only [stoiChars]
  rw [hdw, hbody, htake, hsign]
  simp

theorem digitsVal_pad4_digits (n : Nat) (h : n < 10000) :
    digitsVal [digitChar (n / 1000), digitChar (n / 100), digitChar (n / 10),
      digitChar n] = n := by
  have h1 := (digitChar_props (n / 1000)).2.2.2.2.2
  have h2 := (digitChar_props (n / 100)).2.2.2.2.2
  have h3 := (digitChar_props (n / 10)).2.2.2.2.2
  have h4 := (digitChar_props n).2.2.2.2.2
  unfold digitsVal
  simp only [List.foldl_cons, List.foldl_nil]
  rw [h1, h2, h3, h4]
  omega

theorem digitsVal_pad2_digits (n : Nat) (h : n < 100) :
    digitsVal [digitChar (n / 10), digitChar n] = n := by
  have h1 := (digitChar_props (n / 10)).2.2.2.2.2
  have h2 := (digitChar_props n).2.2.2.2.2
  unfold digitsVal
  simp only [List.foldl_cons, List.foldl_nil]
  rw [h1, h2]
  omega

theorem stoiChars_pad4 (n : Nat) (h : n < 10000) :
    stoiChars (pad4 n) = some (n : Int) := by
  unfold pad4
  rw [if_pos h]
  rw [stoiChars_digitPrefix (n / 1000)
    [digitChar (n / 100), digitChar (n / 10), digitChar n]
    (fun c hc => by
      simp only [List.mem_cons, List.not_mem_nil, or_false] at hc
      rcases hc with h2 | h2 | h2 <;> rw [h2] <;> exact (digitChar_props _).1)]
  rw [digitsVal_pad4_digits n h]

theorem stoiChars_pad2 (n : Nat) (h : n < 100) :
    stoiChars (pad2 n) = some (n : Int) := by
  unfold pad2
  rw [if_pos h]
  rw [stoiChars_digitPrefix (n / 10) [digitChar n]
    (fun c hc => by
      simp only [List.mem_cons, List.not_mem_nil, or_false] at hc
      rw [hc]
      exact (digitChar_props _).1)]
  rw [digitsVal_pad2_digits n h]

/-- For a date with a four-digit year and valid components, the text
written by `formatYMD` parses back to the same date. -/
theorem parseTrackedDate_formatYMD (x : Ymd) (hy0 : 0 ≤ x.y)
    (hy1 : x.y ≤ 9999) (hyok : yearOk x.y = true) (hm : monthOk x.m = true)
    (hd : dayOk x.d = true) :
    parseTrackedDate (formatYMD x) = .ok x := by
  have hm12 : 1 ≤ x.m ∧ x.m ≤ 12 := by simpa [monthOk] using hm
  have hd31 : 1 ≤ x.d ∧ x.d ≤ 31 := by simpa [dayOk] using hd
  have hylt : x.y.toNat < 10000 := by omega
  have hmlt : x.m < 100 := by omega
  have hdlt : x.d < 100 := by omega
  have hfmt : formatYMD x =
      digitChar (x.y.toNat / 1000) :: digitChar (x.y.toNat / 100) ::
      digitChar (x.y.toNat / 10) :: digitChar x.y.toNat :: '-' ::
      digitChar (x.m / 10) :: digitChar x.m :: '-' ::
      digitChar (x.d / 10) :: digitChar x.d :: [] := by
    unfold formatYMD pad4 pad2
    rw [if_neg (by omega : ¬ x.y < 0), if_pos hylt, if_pos hmlt, if_pos hdlt]
    simp
  have hp4 : pad4 x.y.toNat =
      [digitChar (x.y.toNat / 1000), digitChar (x.y.toNat / 100),
        digitChar (x.y.toNat / 10), digitChar x.y.toNat] := by
    unfold pad4
    rw [if_pos hylt]
  have hp2m : pad2 x.m = [digitChar (x.m / 10), digitChar x.m] := by
    unfold pad2
    rw [if_pos hmlt]
  have hp2d : pad2 x.d = [digitChar (x.d / 10), digitChar x.d] := by
    unfold pad2
    rw [if_pos hdlt]
  have hstoi1 : stoiChars [digitChar (x.y.toNat / 1000),
      digitChar (x.y.toNat / 100), digitChar (x.y.toNat / 10),
      digitChar x.y.toNat] = some x.y := by
    rw [← hp4, stoiChars_pad4 _ hylt]
    exact congrArg some (Int.toNat_of_nonneg hy0)
  have hstoi2 : stoiChars [digitChar (x.m / 10), digitChar x.m] =
      some (x.m : Int) := by
    rw [← hp2m]
    exact stoiChars_pad2 _ hmlt
  have hstoi3 : stoiChars [digitChar (x.d / 10), digitChar x.d] =
      some (x.d : Int) := by
    rw [← hp2d]
    exact stoiChars_pad2 _ hdlt
  rw [hfmt]
  unfold parseTrackedDate
  have hs1 : substrOpt
      (digitChar (x.y.toNat / 1000) :: digitChar (x.y.toNat / 100) ::
        digitChar (x.y.toNat / 10) :: digitChar x.y.toNat :: '-' ::
        digitChar (x.m / 10) :: digitChar x.m :: '-' ::
        digitChar (x.d / 10) :: digitChar x.d :: []) 0 4 =
      some [digitChar (x.y.toNat / 1000), digitChar (x.y.toNat / 100),
        digitChar (x.y.toNat / 10), digitChar x.y.toNat] := rfl
  have hs2 : substrOpt
      (digitChar (x.y.toNat / 1000) :: digitChar (x.y.toNat / 100) ::
        digitChar (x.y.toNat / 10) :: digitChar x.y.toNat :: '-' ::
        digitChar (x.m / 10) :: digitChar x.m :: '-' ::
        digitChar (x.d / 10) :: digitChar x.d :: []) 5 2 =
      some [digitChar (x.m / 10), digitChar x.m] := rfl
  have hs3 : substrOpt
      (digitChar (x.y.toNat / 1000) :: digitChar (x.y.toNat / 100) ::
        digitChar (x.y.toNat / 10) :: digitChar x.y.toNat :: '-' ::
        digitChar (x.m / 10) :: digitChar x.m :: '-' ::
        digitChar (x.d / 10) :: digitChar x.d :: []) 8 2 =
      some [digitChar (x.d / 10), digitChar x.d] := rfl
  rw [hs1]
  dsimp only
  rw [hstoi1]
  dsimp only
  rw [hs2]
  dsimp only
  rw [hstoi2]
  dsimp only
  rw [hs3]
  dsimp only
  rw [hstoi3]
  dsimp only
  have hcond : (yearOk x.y && monthIntOk (x.m : Int) &&
      dayIntOk (x.d : Int)) = true := by
    simp only [Bool.and_eq_true, monthIntOk, dayIntOk, decide_eq_true_eq,
      hyok, true_and]
    omega
  rw [if_pos hcond]
  simp [Int.toNat_natCast]

theorem wrap32_eq_self {v : Int} (h0 : 0 ≤ v) (h1 : v < 2147483648) :
    wrap32 v = v := by
  unfold wrap32
  omega

/-- Rebuilding a duplicate-free map by inserting its wrapped bindings in
order reproduces the map when every value is fixed by the wrap. -/
theorem foldl_mapInsert_rebuild (l : List (String × Int))
    (acc : List (String × Int))
    (hnd : (keysOf l).Nodup) (hdisj : ∀ k ∈ keysOf l, k ∉ keysOf acc)
    (hvals : ∀ kv ∈ l, wrap32 kv.2 = kv.2) :
    l.foldl (fun acc2 kv => mapInsert kv.1 (wrap32 kv.2) acc2) acc =
      acc ++ l := by
  induction l generalizing acc with
  | nil => simp
  | cons hd tl ih =>
    obtain ⟨k, v⟩ := hd
    simp only [keysOf, List.map_cons, List.nodup_cons] at hnd
    rw [List.foldl_cons]
    dsimp only
    rw [hvals (k, v) (List.mem_cons_self _ _),
      mapInsert_of_not_mem v (hdisj k (by simp [keysOf]))]
    rw [ih (acc ++ [(k, v)]) (by simpa [keysOf] using hnd.2)
      (fun k2 hk2 => by
        intro hmem2
        simp only [keysOf, List.map_append, List.map_cons, List.map_nil,
          List.mem_append, List.mem_cons, List.not_mem_nil, or_false]
          at hmem2
        rcases hmem2 with h | h
        · exact hdisj k2
            (by
              simp only [keysOf, List.map_cons, List.mem_cons]
              exact Or.inr (by simpa [keysOf] using hk2))
            (by simpa [keysOf] using h)
        · exact hnd.1 (h ▸ (by simpa [keysOf] using hk2)))
      (fun kv hkv => hvals kv (List.mem_cons_of_mem _ hkv))]
    simp

/-- C10 (amended): a `TrackedData` whose date has a four-digit year
(0 ≤ year ≤ 9999) and valid month/day components, and whose counters are
in the nonnegative `int` range, survives `storeTrackedPairs` followed by
`getTrackedPairs` unchanged: the "YYYY-MM-DD" text recovers the date at
the fixed substring offsets and the JSON object round-trips the map. -/
theorem storeTrackedPairs_roundTrip (db : Db) (data : TrackedData)
    (hy0 : 0 ≤ data.date.y) (hy1 : data.date.y ≤ 9999)
    (hyok : yearOk data.date.y = true) (hm : monthOk data.date.m = true)
    (hd : dayOk data.date.d = true)
    (hnd : (keysOf data.trackedPairs).Nodup)
    (hvals : ∀ kv ∈ data.trackedPairs, 0 ≤ kv.2 ∧ kv.2 < 2147483648) :
    getTrackedPairs (storeTrackedPairs db data).trackedRow = .ok data := by
  unfold storeTrackedPairs getTrackedPairs
  dsimp only
  rw [parseTrackedDate_formatYMD data.date hy0 hy1 hyok hm hd]
  dsimp only
  rw [foldl_mapInsert_rebuild data.trackedPairs [] hnd
    (by
      intro k hk
      simp [keysOf])
    (fun kv hkv => wrap32_eq_self (hvals kv hkv).1 (hvals kv hkv).2)]
  simp

/-- C10 counterexample: the chrono-valid date 12345-01-02 (five-digit
year) does not round-trip — the fixed substring offsets misparse the
text "12345-01-02" and the reader falls back to `EMPTY_DATE`. -/
theorem storeTrackedPairs_roundTrip_counterexample :
    getTrackedPairs
      (storeTrackedPairs ⟨none, none, []⟩ ⟨⟨12345, 1, 2⟩, []⟩).trackedRow =
      .ok ⟨EMPTY_DATE, []⟩ ∧
    yearOk 12345 = true ∧ monthOk 1 = true ∧ dayOk 2 = true ∧
    (⟨EMPTY_DATE, []⟩ : TrackedData) ≠ ⟨⟨12345, 1, 2⟩, []⟩ := by
  refine ⟨rfl, rfl, rfl, rfl, ?_⟩
  decide

/-- C10 witness: the tracked state (2024-01-18, BTCUSDT at 0) round-trips
through store and read. -/
theorem storeTrackedPairs_roundTrip_witness :
    getTrackedPairs
      (storeTrackedPairs ⟨none, none, []⟩
        ⟨⟨2024, 1, 18⟩, [("BTCUSDT", 0)]⟩).trackedRow =
      .ok ⟨⟨2024, 1, 18⟩, [("BTCUSDT", 0)]⟩ :=
  storeTrackedPairs_roundTrip ⟨none, none, []⟩
    ⟨⟨2024, 1, 18⟩, [("BTCUSDT", 0)]⟩ (by decide) (by decide) (by decide)
    (by decide) (by decide) (by decide) (by decide)

/-! ## `downloadData` (`database_downloader.cpp`, lines 191-291) -/

/-- `DatabaseDownloader::openDatabaseOHLCV` (`database_db_helper.cpp`,
lines 23-113) on an openable file: ensure the tables exist and insert the
`date_of_start` marker only when that table is empty. -/
def openDatabaseOHLCV (db : Db) (yymmdd : String) : Db :=
  if db.dateOfStart.isNone then { db with dateOfStart := some yymmdd }
  else db

/-- The oracles of one `downloadData` run: whether `sqlite3_open`
succeeds, the database content at open time, the ticker-endpoint
outcome, and the merged result of the threaded per-pair kline fetch
(`fetchDataOHLCV`), which is network- and thread-dependent and enters
the model as an input. -/
structure World where
  openOk : Bool
  db : Db
  tickers : Transport
  fetched : OHLCVData

/-- Line 211 of `database_downloader.cpp`:
`prev.date != EMPTY_DATE && !prev.trackedPairs.empty()`. -/
def prevExistsOf (prev : TrackedData) : Bool :=
  !decide (prev.date = EMPTY_DATE) && !prev.trackedPairs.isEmpty

/-- The tail of `downloadData` after the tracked-pairs refresh
(`database_downloader.cpp`, lines 249-291): compute the backfill plan; an
empty plan logs "already up to date" and returns false; otherwise fetch
(oracle), prune, and either return true without an OHLCV write (nothing
left after pruning) or store the candles and return true. -/
def downloadDataTail (w : World) (db2 : Db) (updated : TrackedData)
    (date : Ymd) : Bool × Db :=
  let plan := computeDaysSinceLastStoredOHLCV db2.ohlcv updated date
  if plan.isEmpty then (false, db2)
  else
    let data := pruneFutureCandles w.fetched date
    if data.data.isEmpty then (true, db2)
    else (true, { db2 with ohlcv := storeDataOHLCV db2.ohlcv data })

/-- `DatabaseDownloader::downloadData` (`database_downloader.cpp`, lines
191-291): open failure → false; the tracked row is read (an unreadable
row would propagate its exception); the top-50 refresh and tracked-pairs
store run only when no state is stored for the target date; an empty
top-50 snapshot → false; then the backfill plan / fetch / prune / store
tail. The model-level store operations cannot fail on the logical state,
so the store-failure branches of the source do not appear. -/
def downloadData (w : World) (date : Ymd) : Except Unit (Bool × Db) :=
  if !w.openOk then .ok (false, w.db)
  else
    let db1 := openDatabaseOHLCV w.db (toString (toYYYYMMDD date))
    match getTrackedPairs db1.trackedRow with
    | .error e => .error e
    | .ok prev =>
      let prev_exists := prevExistsOf prev
      if !prev_exists || decide (prev.date ≠ date) then
        match getTop50PairsByVolume w.tickers with
        | .error e => .error e
        | .ok top50 =>
          if top50.isEmpty then .ok (false, db1)
          else
            let updated := getNewTrackedPairs prev top50 prev_exists date
            .ok (downloadDataTail w (storeTrackedPairs db1 updated)
              updated date)
      else .ok (downloadDataTail w db1 prev date)

theorem downloadDataTail_trackedRow (w : World) (db2 : Db)
    (updated : TrackedData) (date : Ymd) :
    (downloadDataTail w db2 updated date).2.trackedRow = db2.trackedRow := by
  unfold downloadDataTail
  dsimp only
  split_ifs <;> rfl

/-- C3: a run in which everything is already up to date — the stored
tracked state matches the target date and the backfill plan comes back
empty — returns false, the same outcome as an unopenable store or an
empty universe snapshot, not a success outcome. This evaluates the code
at the failing input of the claim. -/
theorem downloadData_emptyPlan_returnsFalse :
    downloadData
      ⟨true,
        ⟨some "20240117",
          some (['2', '0', '2', '4', '-', '0', '1', '-', '1', '8'],
            [("BTCUSDT", 0)]),
          [(("BTCUSDT", 20240118), candle0)]⟩,
        .curlInitFailure, ⟨[]⟩⟩
      ⟨2024, 1, 18⟩ =
      .ok (false,
        ⟨some "20240117",
          some (['2', '0', '2', '4', '-', '0', '1', '-', '1', '8'],
            [("BTCUSDT", 0)]),
          [(("BTCUSDT", 20240118), candle0)]⟩) := by
  rfl

/-- C9: when the stored tracked row reads back with an empty pair map —
whatever its date field holds — `downloadData` computes prev_exists as
false and restarts: the tracked row it stores carries the target date
(the stored date is discarded) and exactly the top-N pairs, each with
counter 0. -/
theorem downloadData_emptyTrackedMap (w : World) (date : Ymd)
    (prev : TrackedData) (top50 : List String)
    (hopen : w.openOk = true)
    (hprev : getTrackedPairs
      (openDatabaseOHLCV w.db (toString (toYYYYMMDD date))).trackedRow =
      .ok prev)
    (hempty : prev.trackedPairs = [])
    (htop : getTop50PairsByVolume w.tickers = .ok top50)
    (hne : top50 ≠ []) :
    prevExistsOf prev = false ∧
    ∃ r, downloadData w date = .ok r ∧
      r.2.trackedRow = some (formatYMD date, initTopZero top50) ∧
      ∀ p ∈ top50, mapFind p (initTopZero top50) = some 0 := by
  have hpe : prevExistsOf prev = false := by
    unfold prevExistsOf
    rw [hempty]
    simp
  refine ⟨hpe, ?_⟩
  have hnem : top50.isEmpty = false := by
    cases top50 with
    | nil => exact absurd rfl hne
    | cons a l => rfl
  unfold downloadData
  rw [hopen]
  simp only [Bool.not_true, Bool.false_eq_true, if_false]
  rw [hprev]
  dsimp only
  rw [hpe]
  simp only [Bool.not_false, Bool.true_or, if_true]
  rw [htop]
  dsimp only
  rw [hnem]
  simp only [Bool.false_eq_true, if_false]
  refine ⟨_, rfl, ?_, ?_⟩
  · rw [downloadDataTail_trackedRow]
    have hupd : getNewTrackedPairs prev top50 false date =
        ⟨date, initTopZero top50⟩ := rfl
    rw [hupd]
    rfl
  · intro p hp
    unfold initTopZero
    rw [mapFind_initTopZero]
    simp [hp]

/-- C9 witness: a stored row dated 2024-01-10 with the empty JSON object,
a top-N of one pair, target 2024-01-18: the run stores (2024-01-18,
BTCUSDT at 0). -/
theorem downloadData_emptyTrackedMap_witness :
    prevExistsOf ⟨⟨2024, 1, 10⟩, []⟩ = false ∧
    ∃ r,
      downloadData
        ⟨true,
          ⟨some "20240117",
            some (['2', '0', '2', '4', '-', '0', '1', '-', '1', '0'], []),
            []⟩,
          .success (.tickers [⟨"BTCUSDT", "5"⟩]), ⟨[]⟩⟩
        ⟨2024, 1, 18⟩ = .ok r ∧
      r.2.trackedRow =
        some (formatYMD ⟨2024, 1, 18⟩, initTopZero ["BTCUSDT"]) ∧
      ∀ p ∈ ["BTCUSDT"], mapFind p (initTopZero ["BTCUSDT"]) = some 0 :=
  downloadData_emptyTrackedMap
    ⟨true,
      ⟨some "20240117",
        some (['2', '0', '2', '4', '-', '0', '1', '-', '1', '0'], []), []⟩,
      .success (.tickers [⟨"BTCUSDT", "5"⟩]), ⟨[]⟩⟩
    ⟨2024, 1, 18⟩ ⟨⟨2024, 1, 10⟩, []⟩ ["BTCUSDT"] rfl rfl rfl rfl
    (by decide)
